import Mathlib

/-!
# Verification of the ensight-backend core (expiring cache + interaction graph)

Shallow embedding of the two core subsystems of `ensight-backend`:

* `TTLCache` — `src/backend/lib/cache.js`.  The JavaScript `Map` backing the
  cache is modelled as an association list in insertion order (JS `Map`
  iteration order is insertion order; `Map.set` on an existing key updates the
  entry in place without changing its position, `Map.delete` removes it).
  Timestamps (`Date.now()`) are passed explicitly as `Nat` arguments.

* The knowledge-graph handlers of `src/backend/app.js`
  (`POST /api/graph/interaction`, `GET /api/graph/address/:address`,
  `edgeTypeFromKind`, `upsertGraphNode`).  The Redis backing store is modelled
  as a `Store` record whose fields mirror the documented key schema
  (`graph:node:{address}`, `graph:edge:{from}:{to}`, `graph:neighbors:{address}`,
  `graph:edges-of:{address}`, `scamsniffer:addresses`).  Redis string keys of
  the form `graph:edge:{from}:{to}` are modelled as the pair `(from, to)`
  (addresses are colon-free, so the encoding is injective).  Redis sets are
  modelled as duplicate-free lists (`sadd` adds only when absent).

JavaScript truthiness on optional string fields is modelled explicitly:
a field is `Option String`, and `x || d` is "use `d` when `x` is `none` or
the empty string".
-/

namespace Ensight

/-! ## JS helpers -/

/-- JS `x || d` for an optional string `x`: falsy (`undefined`/`null`/`""`)
falls back to `d`. -/
def jsOrS (x : Option String) (d : String) : String :=
  match x with
  | none => d
  | some s => if s = "" then d else s

/-- JS `x || ''` for an optional string field (used when creating records). -/
def jsStr (x : Option String) : String :=
  jsOrS x ""

/-- JS `startsWith`, modelled on the character list (the built-in Lean
string-prefix test reduces poorly inside the kernel). -/
def strStartsWith (s pre : String) : Bool :=
  pre.data.isPrefixOf s.data

/-- JS `toLowerCase`, modelled on the character list (the built-in Lean
lowercasing function reduces poorly inside the kernel). -/
def strToLower (s : String) : String :=
  ⟨s.data.map Char.toLower⟩

/-! ## TTLCache (src/backend/lib/cache.js) -/

/-- One entry of the cache `Map`: `{ value, expiresAt }`. -/
structure CacheEntry (α : Type) where
  value : α
  expiresAt : Nat
  deriving Repr, DecidableEq

/-- JS `Map.get`: first (and, under the nodup-keys invariant, only) binding. -/
def mapGet {β : Type} : List (String × β) → String → Option β
  | [], _ => none
  | (k0, v) :: rest, k => if k0 = k then some v else mapGet rest k

/-- JS `Map.set`: update in place when the key is present (keeping its position,
as JS `Map.set` does), otherwise append at the end. -/
def mapSet {β : Type} : List (String × β) → String → β → List (String × β)
  | [], k, v => [(k, v)]
  | (k0, v0) :: rest, k, v =>
      if k0 = k then (k, v) :: rest else (k0, v0) :: mapSet rest k v

/-- JS `Map.delete`: remove the binding of `k` (all of them; under the nodup-keys
invariant there is at most one). -/
def mapDelete {β : Type} : List (String × β) → String → List (String × β)
  | [], _ => []
  | (k0, v0) :: rest, k =>
      if k0 = k then mapDelete rest k else (k0, v0) :: mapDelete rest k

/-- The default TTL constant `DEFAULT_TTL_MS = 5 * 60 * 1000`. -/
def DEFAULT_TTL_MS : Nat := 5 * 60 * 1000

/-- The default capacity constant `MAX_ENTRIES = 10000`. -/
def MAX_ENTRIES : Nat := 10000

/-- The `TTLCache` class: configured TTL, configured capacity, and the backing
`Map` in insertion order (head = oldest inserted entry still tracked). -/
structure TTLCache (α : Type) where
  ttlMs : Nat := DEFAULT_TTL_MS
  maxEntries : Nat := MAX_ENTRIES
  store : List (String × CacheEntry α) := []

/-- Method `get(key)` of `TTLCache`: miss on absent key; if `Date.now() > expiresAt` the
entry is deleted and the call misses; otherwise the value is returned.
Returns the result together with the (possibly updated) cache. -/
def TTLCache.get {α : Type} (c : TTLCache α) (now : Nat) (key : String) :
    Option α × TTLCache α :=
  match mapGet c.store key with
  | none => (none, c)
  | some entry =>
      if entry.expiresAt < now then
        (none, { c with store := mapDelete c.store key })
      else
        (some entry.value, c)

/-- Method `set(key, value, ttlMs?)` of `TTLCache`: if `size >= maxEntries`, delete the
first key of the `Map` (`keys().next().value`; a no-op on the empty map),
then insert `{ value, expiresAt := now + (ttlMs ?? this._ttlMs) }`. -/
def TTLCache.set {α : Type} (c : TTLCache α) (now : Nat) (key : String) (v : α)
    (ttlOverride : Option Nat) : TTLCache α :=
  let st :=
    if c.maxEntries ≤ c.store.length then
      match c.store with
      | [] => c.store
      | (k0, _) :: _ => mapDelete c.store k0
    else c.store
  { c with store := mapSet st key { value := v, expiresAt := now + ttlOverride.getD c.ttlMs } }

/-- Method `has(key)` of `TTLCache`. -/
def TTLCache.has {α : Type} (c : TTLCache α) (now : Nat) (key : String) : Bool :=
  ((c.get now key).1).isSome

/-! ## Knowledge graph (src/backend/app.js) -/

/-- Modelled from the spec: `ethers.isAddress` is an external validation
collaborator (the `ethers` library), not part of this repository's sources.
The spec (§3) describes a valid address as a 0x-prefixed 40-hex-char string;
mixed-case checksum validation is not modelled, hex digits are accepted in
either case. -/
def isAddress (s : String) : Bool :=
  s.data.length = 42 && strStartsWith s "0x" &&
    (s.data.drop 2).all (fun c => c.isDigit || ('a' ≤ c && c ≤ 'f') || ('A' ≤ c && c ≤ 'F'))

/-- A graph node record, `graph:node:{address}` (see `upsertGraphNode`). -/
structure GraphNode where
  address : String
  ensName : Option String
  label : Option String
  firstSeen : Nat
  lastSeen : Nat
  interactionCount : Nat
  deriving Repr, DecidableEq

/-- An edge record, `graph:edge:{from}:{to}` (see `POST /api/graph/interaction`).
`from` is a Lean keyword, so the two endpoint fields are `from_` / `to_`. -/
structure EdgeData where
  from_ : String
  to_ : String
  type : String
  method : String
  kind : String
  hostname : String
  count : Nat
  firstSeen : Nat
  lastSeen : Nat
  chainId : Option Nat
  value : Option String
  hasData : Option Bool
  deriving Repr, DecidableEq

/-- The Redis state used by the graph handlers, following the documented key
schema.  Edge keys `graph:edge:{from}:{to}` are modelled as ordered pairs;
`graph:neighbors:{a}` and `graph:edges-of:{a}` are Redis sets, modelled as
duplicate-free lists; `scamsniffer:addresses` is the blacklist set. -/
structure Store where
  nodes : String → Option GraphNode
  edges : String × String → Option EdgeData
  neighbors : String → List String
  edgesOf : String → List (String × String)
  blacklist : List String

/-- Redis `SADD` on a set modelled as a duplicate-free list. -/
def saddL (l : List String) (x : String) : List String :=
  if l.contains x then l else l ++ [x]

/-- Redis `SADD` for the edge-membership sets (elements are edge keys). -/
def saddP (l : List (String × String)) (x : String × String) : List (String × String) :=
  if l.contains x then l else l ++ [x]

/-- Function `edgeTypeFromKind(kind, method)` (app.js).  The JS `switch` falls through
to the `default` branch both when `kind` is absent and when it is any
unrecognized value; in the default branch the truthiness guard
`method && method.startsWith(...)` is modelled on the optional `method`. -/
def edgeTypeFromKind (kind method : Option String) : String :=
  match kind with
  | some k =>
      if k = "tx" then "sent_tx"
      else if k = "sign" then "signed_for"
      else if k = "connect" then "connected"
      else if k = "chain" then "chain_switch"
      else
        match method with
        | some m =>
            if strStartsWith m "eth_sendTransaction" then "sent_tx"
            else if strStartsWith m "eth_sign" then "signed_for"
            else "interaction"
        | none => "interaction"
  | none =>
      match method with
      | some m =>
          if strStartsWith m "eth_sendTransaction" then "sent_tx"
          else if strStartsWith m "eth_sign" then "signed_for"
          else "interaction"
      | none => "interaction"

/-- Function `upsertGraphNode(address, now)` (app.js).  `la` is the external
`provider.lookupAddress` collaborator (best-effort; a swallowed failure is
`none`).  Returns the updated store and the written node. -/
def upsertGraphNode (la : String → Option String) (s : Store) (address : String)
    (now : Nat) : Store × GraphNode :=
  match s.nodes address with
  | some existing =>
      let node : GraphNode :=
        { existing with lastSeen := now, interactionCount := existing.interactionCount + 1 }
      ({ s with nodes := fun a => if a = address then some node else s.nodes a }, node)
  | none =>
      let ensName := la address
      let node : GraphNode :=
        { address := address, ensName := ensName, label := ensName,
          firstSeen := now, lastSeen := now, interactionCount := 1 }
      ({ s with nodes := fun a => if a = address then some node else s.nodes a }, node)

/-- The request body of `POST /api/graph/interaction`.  Optional JSON fields
are `Option`s (`none` = absent/null/non-string). -/
structure InteractionReq where
  from_ : Option String
  to_ : Option String
  method : Option String
  kind : Option String
  hostname : Option String
  chainId : Option Nat
  value : Option String
  hasData : Option Bool
  deriving Repr

/-- JS `(from && typeof from === 'string' && ethers.isAddress(from)) ?
from.toLowerCase() : null` (app.js line 565). -/
def validFrom (r : InteractionReq) : Option String :=
  match r.from_ with
  | some f => if isAddress f then some (strToLower f) else none
  | none => none

/-- JS `const effectiveFrom = fromAddr || 'unknown'` (app.js line 581). -/
def effectiveFrom (r : InteractionReq) : String :=
  (validFrom r).getD "unknown"

/-- The outcome visible to the caller of `POST /api/graph/interaction`. -/
inductive RIResult where
  | ok : RIResult
  | badRequest : String → RIResult
  deriving Repr, DecidableEq

/-- The body of `POST /api/graph/interaction` (app.js lines 556-621), on the
`redisConfigured` path.  A validation failure returns the 400 response with the
store untouched (the JS handler returns before issuing any Redis command).
`now` is the handler's single `Date.now()` read. -/
def recordInteraction (la : String → Option String) (s : Store) (r : InteractionReq)
    (now : Nat) : RIResult × Store :=
  match r.to_ with
  | none => (RIResult.badRequest "valid \"to\" address required", s)
  | some t =>
      if isAddress t then
        let fromAddr := validFrom r
        let toAddr := strToLower t
        let edgeType := edgeTypeFromKind r.kind r.method
        let s1 := (upsertGraphNode la s toAddr now).1
        let s2 := match fromAddr with
          | some f => (upsertGraphNode la s1 f now).1
          | none => s1
        let ef := fromAddr.getD "unknown"
        let edgeData : EdgeData :=
          match s2.edges (ef, toAddr) with
          | some e =>
              { e with count := e.count + 1, lastSeen := now, type := edgeType,
                       method := jsOrS r.method e.method }
          | none =>
              { from_ := ef, to_ := toAddr, type := edgeType,
                method := jsStr r.method, kind := jsStr r.kind,
                hostname := jsStr r.hostname, count := 1,
                firstSeen := now, lastSeen := now,
                chainId := r.chainId, value := r.value, hasData := r.hasData }
        let s3 := { s2 with
          edges := fun k => if k = (ef, toAddr) then some edgeData else s2.edges k }
        let s4 := { s3 with
          edgesOf := fun a =>
            if a = toAddr then saddP (s3.edgesOf toAddr) (ef, toAddr) else s3.edgesOf a }
        let s5 := match fromAddr with
          | some f =>
              let sA := { s4 with
                edgesOf := fun a =>
                  if a = f then saddP (s4.edgesOf f) (ef, toAddr) else s4.edgesOf a }
              let sB := { sA with
                neighbors := fun a =>
                  if a = f then saddL (sA.neighbors f) toAddr else sA.neighbors a }
              { sB with
                neighbors := fun a =>
                  if a = toAddr then saddL (sB.neighbors toAddr) f else sB.neighbors a }
          | none => s4
        (RIResult.ok, s5)
      else
        (RIResult.badRequest "valid \"to\" address required", s)

/-- The risk-summary record returned by `GET /api/graph/address/:address`. -/
structure RiskSummary where
  flagged : Bool
  flaggedNeighborCount : Nat
  totalNeighborCount : Nat
  deriving Repr, DecidableEq

/-- The flagged-neighbor counting loop of `GET /api/graph/address/:address`
(app.js lines 657-660): a fold over the neighbor list incrementing a counter
on blacklist membership. -/
def countFlagged (black : List String) (neighbors : List String) : Nat :=
  neighbors.foldl (fun acc nb => if black.contains nb then acc + 1 else acc) 0

/-- The risk-summary portion of `GET /api/graph/address/:address`
(app.js lines 654-669), after the handler has canonicalized the address to
lowercase. -/
def riskSummary (s : Store) (address : String) : RiskSummary :=
  let a := strToLower address
  let flagged := s.blacklist.contains a
  let neighbors := s.neighbors a
  { flagged := flagged,
    flaggedNeighborCount := countFlagged s.blacklist neighbors,
    totalNeighborCount := neighbors.length }

/-! ## Derived definitions used in statements -/

/-- Sequential execution of a list of interaction events, each a
`(request, Date.now())` pair (one `recordInteraction` call per event; the
requests may differ from call to call). -/
def iterateRI (la : String → Option String) :
    List (InteractionReq × Nat) → Store → Store
  | [], s => s
  | ev :: rest, s => iterateRI la rest ((recordInteraction la s ev.1 ev.2).2)

/-- A syntactically valid lowercase address. -/
def addrA : String := "0xaaaaaaaaaaaaaaaaaaaaaaaaaaaaaaaaaaaaaaaa"

/-- A second valid lowercase address. -/
def addrB : String := "0xbbbbbbbbbbbbbbbbbbbbbbbbbbbbbbbbbbbbbbbb"

/-- A third valid lowercase address. -/
def addrC : String := "0xcccccccccccccccccccccccccccccccccccccccc"

/-- The empty Redis state. -/
def emptyStore : Store :=
  { nodes := fun _ => none, edges := fun _ => none, neighbors := fun _ => [],
    edgesOf := fun _ => [], blacklist := [] }

/-- A cache holding one entry `"k"` that expires at time 100. -/
def cacheK : TTLCache String :=
  { ttlMs := 100, maxEntries := 2,
    store := [("k", { value := "v", expiresAt := 100 })] }

/-- A cache at full capacity (`maxEntries = 2`, two live entries, `"a"` the
oldest inserted). -/
def cacheFull : TTLCache String :=
  { ttlMs := 100, maxEntries := 2,
    store := [("a", { value := "1", expiresAt := 1000 }),
              ("b", { value := "2", expiresAt := 1000 })] }

/-- An existing node for `addrA` with `interactionCount = 5`. -/
def nodeA5 : GraphNode :=
  { address := addrA, ensName := none, label := none,
    firstSeen := 1, lastSeen := 1, interactionCount := 5 }

/-- A store containing only `nodeA5`. -/
def storeA5 : Store :=
  { emptyStore with nodes := fun a => if a = addrA then some nodeA5 else none }

/-- An interaction event whose `from` and `to` are both `addrA`. -/
def reqAA : InteractionReq :=
  { from_ := some addrA, to_ := some addrA, method := some "eth_sendTransaction",
    kind := none, hostname := some "x.org", chainId := none, value := none,
    hasData := none }

/-- An interaction event from `addrA` to `addrB`. -/
def reqAB : InteractionReq :=
  { from_ := some addrA, to_ := some addrB, method := some "eth_sendTransaction",
    kind := some "tx", hostname := some "app.uniswap.org", chainId := some 1,
    value := some "1000000000000000000", hasData := some true }

/-- The uppercase-hex rendering of `addrB` (same address, different casing). -/
def addrBU : String := "0xBBBBBBBBBBBBBBBBBBBBBBBBBBBBBBBBBBBBBBBB"

/-- A second interaction event on the `(addrA, addrB)` pair carrying
different attributes than `reqAB` and addressing `to` in uppercase hex. -/
def reqAB2 : InteractionReq :=
  { from_ := some addrA, to_ := some addrBU, method := some "eth_signTypedData",
    kind := some "sign", hostname := some "other.example", chainId := none,
    value := none, hasData := none }

/-- An interaction event with absent `from`. -/
def reqUB : InteractionReq :=
  { from_ := none, to_ := some addrB, method := some "eth_call",
    kind := none, hostname := some "x.org", chainId := none, value := none,
    hasData := none }

/-- An interaction event with a malformed `to`. -/
def reqBad : InteractionReq :=
  { from_ := some addrA, to_ := some "invalid", method := some "eth_sendTransaction",
    kind := some "tx", hostname := some "x.org", chainId := none, value := none,
    hasData := none }

/-- An existing edge `("unknown", addrB)` created with `kind = "connect"`,
`hostname = "a.com"`, `method = "m1"`. -/
def edgeB0 : EdgeData :=
  { from_ := "unknown", to_ := addrB, type := "connected", method := "m1",
    kind := "connect", hostname := "a.com", count := 1, firstSeen := 10,
    lastSeen := 10, chainId := none, value := none, hasData := none }

/-- A store containing only `edgeB0`. -/
def storeB0 : Store :=
  { emptyStore with
    edges := fun k => if k = ("unknown", addrB) then some edgeB0 else none }

/-- A follow-up event on the `("unknown", addrB)` edge carrying fresh
`method`, `kind` and `hostname` values. -/
def reqB2 : InteractionReq :=
  { from_ := none, to_ := some addrB, method := some "m2", kind := some "tx",
    hostname := some "b.com", chainId := none, value := none, hasData := none }

/-- A store where `addrA` has neighbors `addrB`, `addrC` and the blacklist
contains `addrB`. -/
def storeR : Store :=
  { emptyStore with
    neighbors := fun a => if a = addrA then [addrB, addrC] else [],
    blacklist := [addrB] }

/-! ### Map lemmas -/

theorem mapGet_mapSet_self {β : Type} (l : List (String × β)) (k : String) (v : β) :
    mapGet (mapSet l k v) k = some v := by
  induction l with
  | nil => simp [mapGet, mapSet]
  | cons p rest ih =>
      obtain ⟨k0, v0⟩ := p
      by_cases h : k0 = k
      · simp [mapSet, mapGet, h]
      · simp [mapSet, mapGet, h, ih]

theorem mapGet_mapSet_ne {β : Type} (l : List (String × β)) (k k1 : String) (v : β)
    (h : k1 ≠ k) : mapGet (mapSet l k v) k1 = mapGet l k1 := by
  induction l with
  | nil => simp [mapGet, mapSet, Ne.symm h]
  | cons p rest ih =>
      obtain ⟨k0, v0⟩ := p
      by_cases h0 : k0 = k
      · subst h0
        simp [mapSet, mapGet, Ne.symm h]
      · simp [mapSet, mapGet, h0, ih]

theorem mapGet_mapDelete_self {β : Type} (l : List (String × β)) (k : String) :
    mapGet (mapDelete l k) k = none := by
  induction l with
  | nil => simp [mapGet, mapDelete]
  | cons p rest ih =>
      obtain ⟨k0, v0⟩ := p
      by_cases h : k0 = k
      · simp [mapDelete, h, ih]
      · simp [mapDelete, mapGet, h, ih]

theorem mapGet_mapDelete_ne {β : Type} (l : List (String × β)) (k k1 : String)
    (h : k1 ≠ k) : mapGet (mapDelete l k) k1 = mapGet l k1 := by
  induction l with
  | nil => simp [mapGet, mapDelete]
  | cons p rest ih =>
      obtain ⟨k0, v0⟩ := p
      by_cases h0 : k0 = k
      · subst h0
        simp [mapDelete, mapGet, Ne.symm h, ih]
      · simp [mapDelete, mapGet, h0, ih]

/-- Deleting a key bound nowhere in the map leaves it unchanged. -/
theorem mapDelete_eq_self {β : Type} (l : List (String × β)) (k : String)
    (h : ∀ p ∈ l, p.1 ≠ k) : mapDelete l k = l := by
  induction l with
  | nil => rfl
  | cons p rest ih =>
      obtain ⟨k0, v0⟩ := p
      have hk0 : k0 ≠ k := h (k0, v0) (List.mem_cons_self _ _)
      simp only [mapDelete, if_neg hk0]
      rw [ih (fun q hq => h q (List.mem_cons_of_mem _ hq))]

/-- Deleting the head key of a map with duplicate-free keys is exactly
dropping the head. -/
theorem mapDelete_head {β : Type} (k0 : String) (e0 : β) (t : List (String × β))
    (hnodup : (((k0, e0) :: t).map Prod.fst).Nodup) :
    mapDelete ((k0, e0) :: t) k0 = t := by
  simp only [List.map_cons, List.nodup_cons] at hnodup
  simp only [mapDelete, if_pos rfl]
  exact mapDelete_eq_self t k0 (by
    intro p hp hpk
    exact hnodup.1 (hpk ▸ List.mem_map_of_mem Prod.fst hp))

/-- Lemma: `mapSet` on a key that is already present keeps the length. -/
theorem length_mapSet_present {β : Type} (l : List (String × β)) (k : String) (v : β)
    (h : (mapGet l k).isSome) : (mapSet l k v).length = l.length := by
  induction l with
  | nil => simp [mapGet] at h
  | cons p rest ih =>
      obtain ⟨k0, v0⟩ := p
      by_cases h0 : k0 = k
      · simp [mapSet, h0]
      · simp only [mapGet, h0, if_neg] at h
        simp [mapSet, h0, ih h]

/-- Lemma: `mapSet` on an absent key appends one entry. -/
theorem length_mapSet_absent {β : Type} (l : List (String × β)) (k : String) (v : β)
    (h : mapGet l k = none) : (mapSet l k v).length = l.length + 1 := by
  induction l with
  | nil => simp [mapSet]
  | cons p rest ih =>
      obtain ⟨k0, v0⟩ := p
      by_cases h0 : k0 = k
      · simp [mapGet, h0] at h
      · simp only [mapGet, h0, if_neg] at h
        simp [mapSet, h0, ih h]


/-- A key that occurs in no binding of the map is not found. -/
theorem mapGet_eq_none_of_not_mem {β : Type} (l : List (String × β)) (k : String)
    (h : k ∉ l.map Prod.fst) : mapGet l k = none := by
  induction l with
  | nil => rfl
  | cons p rest ih =>
      obtain ⟨k0, v0⟩ := p
      simp only [List.map_cons, List.mem_cons] at h
      push_neg at h
      simp only [mapGet, if_neg (Ne.symm h.1)]
      exact ih h.2

/-! ## Cache claims -/

/-- Claim C4, counterexample: the claim says an entry is visible iff the
current time is **strictly** before `expiresAt`.  On the cache holding an
entry for `"k"` with `expiresAt = 100`, `get` at `now = 100` still returns
the value (the code tests `Date.now() > entry.expiresAt`), although
`100 < 100` is false. -/
theorem C4_counterexample :
    (cacheK.get 100 "k").1 = some "v" ∧ ¬ ((100 : Nat) < 100) :=
  ⟨rfl, by decide⟩

/-- Claim C4 (amended): for every cache state and key, `get` returns the
stored value iff the current time is **at or before** the entry's
`expiresAt`; when the current time is strictly past `expiresAt`, `get`
returns absent and removes the entry from the store as a side effect of the
read; an absent key misses and leaves the cache unchanged. -/
theorem C4_cache_get_visibility (α : Type) (c : TTLCache α) (now : Nat) (key : String) :
    (∀ v, (c.get now key).1 = some v ↔
        ∃ e, mapGet c.store key = some e ∧ now ≤ e.expiresAt ∧ e.value = v)
    ∧ (∀ e, mapGet c.store key = some e → e.expiresAt < now →
        (c.get now key).1 = none ∧ mapGet ((c.get now key).2).store key = none)
    ∧ (mapGet c.store key = none → c.get now key = (none, c)) := by
  refine ⟨?_, ?_, ?_⟩
  · intro v
    unfold TTLCache.get
    cases h : mapGet c.store key with
    | none => simp
    | some e =>
        by_cases hexp : e.expiresAt < now
        · constructor
          · intro hcontra
            simp [if_pos hexp] at hcontra
          · rintro ⟨e2, he2, hle, hv⟩
            have he3 : e = e2 := by injection he2
            have : now ≤ e.expiresAt := he3 ▸ hle
            omega
        · constructor
          · intro hsome
            have hv : e.value = v := by
              simpa [if_neg hexp] using hsome
            exact ⟨e, rfl, by omega, hv⟩
          · rintro ⟨e2, he2, hle, hv⟩
            have he3 : e = e2 := by injection he2
            subst he3
            simp [if_neg hexp, hv]
  · intro e he hexp
    unfold TTLCache.get
    rw [he]
    simp only [if_pos hexp]
    exact ⟨trivial, mapGet_mapDelete_self c.store key⟩
  · intro h
    unfold TTLCache.get
    rw [h]

/-- Claim C4 witness: on the concrete cache `cacheK` the amended theorem
yields visibility at `now = 50` and eviction-on-read at `now = 101`. -/
theorem C4_cache_get_visibility_witness :
    (cacheK.get 50 "k").1 = some "v" ∧
    (cacheK.get 101 "k").1 = none ∧
    mapGet ((cacheK.get 101 "k").2).store "k" = none := by
  have h50 := (C4_cache_get_visibility String cacheK 50 "k").1 "v"
  have h101 := (C4_cache_get_visibility String cacheK 101 "k").2.1
    { value := "v", expiresAt := 100 } rfl (by decide)
  exact ⟨h50.mpr ⟨{ value := "v", expiresAt := 100 }, rfl, by decide, rfl⟩,
    h101.1, h101.2⟩

/-- Claim C7: when the store holds exactly `maxEntries` entries, `set`
evicts exactly one entry — the oldest inserted entry still tracked (the head
of the insertion-ordered store) — and inserts the new entry, leaving every
other entry untouched; below capacity `set` evicts nothing; and a
(non-expired) `get` never changes the store, so eviction order is
independent of how recently an entry was read. -/
theorem C7_cache_eviction (α : Type) (c : TTLCache α) (now : Nat) (key : String)
    (v : α) (hnodup : (c.store.map Prod.fst).Nodup) :
    (∀ k0 e0 t, c.store = (k0, e0) :: t → c.store.length = c.maxEntries →
        key ≠ k0 →
        mapGet (c.set now key v none).store k0 = none ∧
        mapGet (c.set now key v none).store key =
          some { value := v, expiresAt := now + c.ttlMs } ∧
        (∀ k1, k1 ≠ k0 → k1 ≠ key →
            mapGet (c.set now key v none).store k1 = mapGet c.store k1))
    ∧ (c.store.length < c.maxEntries →
        (∀ k1, k1 ≠ key →
            mapGet (c.set now key v none).store k1 = mapGet c.store k1))
    ∧ (∀ key2 now2 e, mapGet c.store key2 = some e → now2 ≤ e.expiresAt →
        (c.get now2 key2).2 = c) := by
  refine ⟨?_, ?_, ?_⟩
  · intro k0 e0 t hstore hcap hne
    have hcap2 : c.maxEntries ≤ c.store.length := le_of_eq hcap.symm
    have hdel : (if c.maxEntries ≤ c.store.length then
        match c.store with
        | [] => c.store
        | (k0, _) :: _ => mapDelete c.store k0
      else c.store) = t := by
      rw [if_pos hcap2, hstore]
      exact mapDelete_head k0 e0 t (hstore ▸ hnodup)
    have hk0t : mapGet t k0 = none := by
      apply mapGet_eq_none_of_not_mem
      have := hstore ▸ hnodup
      simp only [List.map_cons, List.nodup_cons] at this
      exact this.1
    refine ⟨?_, ?_, ?_⟩
    · show mapGet (mapSet _ key _) k0 = none
      rw [hdel, mapGet_mapSet_ne t key k0 _ (Ne.symm hne)]
      exact hk0t
    · show mapGet (mapSet _ key _) key = _
      rw [hdel, mapGet_mapSet_self]
      rfl
    · intro k1 hk1 hk1key
      show mapGet (mapSet _ key _) k1 = _
      rw [hdel, mapGet_mapSet_ne t key k1 _ hk1key, hstore]
      simp only [mapGet, if_neg (Ne.symm hk1)]
  · intro hlt k1 hk1
    have hcond : ¬ c.maxEntries ≤ c.store.length := by omega
    show mapGet (mapSet (if c.maxEntries ≤ c.store.length then _ else c.store) key _) k1 = _
    rw [if_neg hcond, mapGet_mapSet_ne c.store key k1 _ hk1]
  · intro key2 now2 e he hle
    unfold TTLCache.get
    rw [he]
    simp only [if_neg (by omega : ¬ e.expiresAt < now2)]

/-- Claim C7 witness: on the full cache (`maxEntries = 2`, entries
`"a"` then `"b"`), inserting `"c"` evicts exactly `"a"`, keeps `"b"`, and a
prior read of `"a"` would not have changed the store. -/
theorem C7_cache_eviction_witness :
    mapGet ((cacheFull.set 200 "c" "3" none)).store "a" = none ∧
    mapGet ((cacheFull.set 200 "c" "3" none)).store "c" =
      some { value := "3", expiresAt := 300 } ∧
    mapGet ((cacheFull.set 200 "c" "3" none)).store "b" = mapGet cacheFull.store "b" ∧
    (cacheFull.get 50 "a").2 = cacheFull := by
  have h := C7_cache_eviction String cacheFull 200 "c" "3" (by decide)
  have h1 := h.1 "a" { value := "1", expiresAt := 1000 }
    [("b", { value := "2", expiresAt := 1000 })] rfl rfl (by decide)
  exact ⟨h1.1, h1.2.1, h1.2.2 "b" (by decide) (by decide),
    h.2.2 "a" 50 { value := "1", expiresAt := 1000 } rfl (by decide)⟩

/-- Claim C10: when the store holds exactly `maxEntries` entries, `set` on a
key that is **already present** (and is not the oldest entry) still evicts
the oldest tracked entry — the eviction is triggered by the size check
alone — so an unrelated entry is removed and the cache ends up strictly
below capacity. -/
theorem C10_set_at_capacity_existing_key (α : Type) (c : TTLCache α) (now : Nat)
    (key : String) (v : α) (k0 : String) (e0 : CacheEntry α)
    (t : List (String × CacheEntry α))
    (hstore : c.store = (k0, e0) :: t)
    (hnodup : (c.store.map Prod.fst).Nodup)
    (hcap : c.store.length = c.maxEntries)
    (hne : key ≠ k0)
    (hpresent : (mapGet c.store key).isSome) :
    mapGet (c.set now key v none).store k0 = none ∧
    (mapGet (c.set now key v none).store key).isSome ∧
    (c.set now key v none).store.length = c.maxEntries - 1 ∧
    (c.set now key v none).store.length < c.maxEntries := by
  have h := C7_cache_eviction α c now key v hnodup
  have h1 := h.1 k0 e0 t hstore hcap hne
  have hkeyt : (mapGet t key).isSome := by
    rw [hstore] at hpresent
    simpa only [mapGet, if_neg (Ne.symm hne)] using hpresent
  have hcap2 : c.maxEntries ≤ c.store.length := le_of_eq hcap.symm
  have hdel : (if c.maxEntries ≤ c.store.length then
      match c.store with
      | [] => c.store
      | (k0, _) :: _ => mapDelete c.store k0
    else c.store) = t := by
    rw [if_pos hcap2, hstore]
    exact mapDelete_head k0 e0 t (hstore ▸ hnodup)
  have hlen : (c.set now key v none).store.length = t.length := by
    show (mapSet _ key _).length = _
    rw [hdel, length_mapSet_present t key _ hkeyt]
  have htlen : t.length + 1 = c.maxEntries := by
    have : c.store.length = t.length + 1 := by rw [hstore]; rfl
    omega
  refine ⟨h1.1, ?_, ?_, ?_⟩
  · rw [h1.2.1]; rfl
  · omega
  · omega

/-- Claim C10 witness: on the full cache, `set` on the already-present,
non-oldest key `"b"` evicts `"a"` and leaves one entry — below capacity. -/
theorem C10_set_at_capacity_existing_key_witness :
    mapGet ((cacheFull.set 200 "b" "9" none)).store "a" = none ∧
    (mapGet ((cacheFull.set 200 "b" "9" none)).store "b").isSome ∧
    (cacheFull.set 200 "b" "9" none).store.length = 1 ∧
    (cacheFull.set 200 "b" "9" none).store.length < 2 := by
  have h := C10_set_at_capacity_existing_key String cacheFull 200 "b" "9"
    "a" { value := "1", expiresAt := 1000 }
    [("b", { value := "2", expiresAt := 1000 })]
    rfl (by decide) rfl (by decide) (by decide)
  exact ⟨h.1, h.2.1, h.2.2.1, h.2.2.2⟩

/-! ## Edge-type classification (claim C2) -/

theorem upsertGraphNode_edges (la : String → Option String) (s : Store) (a : String)
    (now : Nat) : ((upsertGraphNode la s a now).1).edges = s.edges := by
  unfold upsertGraphNode
  cases h : s.nodes a <;> rfl

theorem upsertGraphNode_neighbors (la : String → Option String) (s : Store) (a : String)
    (now : Nat) : ((upsertGraphNode la s a now).1).neighbors = s.neighbors := by
  unfold upsertGraphNode
  cases h : s.nodes a <;> rfl

theorem upsertGraphNode_nodes_same (la : String → Option String) (s : Store) (a : String)
    (now : Nat) (n : GraphNode) (h : s.nodes a = some n) :
    ((upsertGraphNode la s a now).1).nodes a =
      some { n with lastSeen := now, interactionCount := n.interactionCount + 1 } := by
  unfold upsertGraphNode
  rw [h]
  simp

theorem upsertGraphNode_nodes_new (la : String → Option String) (s : Store) (a : String)
    (now : Nat) (h : s.nodes a = none) :
    ((upsertGraphNode la s a now).1).nodes a =
      some { address := a, ensName := la a, label := la a,
             firstSeen := now, lastSeen := now, interactionCount := 1 } := by
  unfold upsertGraphNode
  rw [h]
  simp

theorem upsertGraphNode_nodes_ne (la : String → Option String) (s : Store) (a : String)
    (now : Nat) (a2 : String) (h : a2 ≠ a) :
    ((upsertGraphNode la s a now).1).nodes a2 = s.nodes a2 := by
  unfold upsertGraphNode
  cases h2 : s.nodes a <;> simp [h2, h]

theorem upsertGraphNode_count_mono (la : String → Option String) (s : Store) (a : String)
    (now : Nat) (a2 : String) (n : GraphNode) (h : s.nodes a2 = some n) :
    ∃ n2, ((upsertGraphNode la s a now).1).nodes a2 = some n2 ∧
      n.interactionCount ≤ n2.interactionCount := by
  by_cases ha : a2 = a
  · subst ha
    rw [upsertGraphNode_nodes_same la s a2 now n h]
    exact ⟨_, rfl, Nat.le_succ _⟩
  · rw [upsertGraphNode_nodes_ne la s a now a2 ha]
    exact ⟨n, h, le_refl _⟩

theorem mem_saddL_self (l : List String) (x : String) : x ∈ saddL l x := by
  unfold saddL
  by_cases h : x ∈ l <;> simp [h]

theorem mem_saddL_of_mem (l : List String) (x y : String) (h : y ∈ l) :
    y ∈ saddL l x := by
  unfold saddL
  by_cases h2 : x ∈ l <;> simp [h2, h]

/-- Both malformed-`to` shapes produce the 400 response and leave the store
untouched (the validation precedes every Redis command in the handler). -/
theorem recordInteraction_invalid (la : String → Option String) (s : Store)
    (r : InteractionReq) (now : Nat)
    (hbad : r.to_ = none ∨ ∃ t, r.to_ = some t ∧ isAddress t = false) :
    recordInteraction la s r now =
      (RIResult.badRequest "valid \"to\" address required", s) := by
  rcases hbad with h | ⟨t, ht, hf⟩
  · unfold recordInteraction
    rw [h]
  · unfold recordInteraction
    rw [ht]
    simp [hf]

theorem recordInteraction_ok (la : String → Option String) (s : Store) (r : InteractionReq)
    (now : Nat) (taddr : String) (hto : r.to_ = some taddr) (hv : isAddress taddr = true) :
    (recordInteraction la s r now).1 = RIResult.ok := by
  unfold recordInteraction
  rw [hto]
  simp only [hv, if_true]

theorem recordInteraction_edges_key (la : String → Option String) (s : Store)
    (r : InteractionReq) (now : Nat) (taddr : String)
    (hto : r.to_ = some taddr) (hv : isAddress taddr = true) :
    ((recordInteraction la s r now).2).edges (effectiveFrom r, strToLower taddr) =
      some (match s.edges (effectiveFrom r, strToLower taddr) with
            | some e =>
                { e with count := e.count + 1, lastSeen := now,
                         type := edgeTypeFromKind r.kind r.method,
                         method := jsOrS r.method e.method }
            | none =>
                { from_ := effectiveFrom r, to_ := strToLower taddr,
                  type := edgeTypeFromKind r.kind r.method,
                  method := jsStr r.method, kind := jsStr r.kind,
                  hostname := jsStr r.hostname, count := 1,
                  firstSeen := now, lastSeen := now,
                  chainId := r.chainId, value := r.value, hasData := r.hasData }) := by
  unfold recordInteraction
  rw [hto]
  simp only [hv, if_true]
  cases hvf : validFrom r with
  | none => simp [effectiveFrom, hvf, upsertGraphNode_edges]
  | some f => simp [effectiveFrom, hvf, upsertGraphNode_edges]

theorem recordInteraction_edge_new (la : String → Option String) (s : Store)
    (r : InteractionReq) (now : Nat) (taddr : String)
    (hto : r.to_ = some taddr) (hv : isAddress taddr = true)
    (h0 : s.edges (effectiveFrom r, strToLower taddr) = none) :
    ((recordInteraction la s r now).2).edges (effectiveFrom r, strToLower taddr) =
      some { from_ := effectiveFrom r, to_ := strToLower taddr,
             type := edgeTypeFromKind r.kind r.method,
             method := jsStr r.method, kind := jsStr r.kind,
             hostname := jsStr r.hostname, count := 1,
             firstSeen := now, lastSeen := now,
             chainId := r.chainId, value := r.value, hasData := r.hasData } := by
  have h := recordInteraction_edges_key la s r now taddr hto hv
  rw [h0] at h
  exact h

theorem recordInteraction_edge_existing (la : String → Option String) (s : Store)
    (r : InteractionReq) (now : Nat) (taddr : String) (e : EdgeData)
    (hto : r.to_ = some taddr) (hv : isAddress taddr = true)
    (hedge : s.edges (effectiveFrom r, strToLower taddr) = some e) :
    ((recordInteraction la s r now).2).edges (effectiveFrom r, strToLower taddr) =
      some { e with count := e.count + 1, lastSeen := now,
                    type := edgeTypeFromKind r.kind r.method,
                    method := jsOrS r.method e.method } := by
  have h := recordInteraction_edges_key la s r now taddr hto hv
  rw [hedge] at h
  exact h

theorem recordInteraction_nodes_some (la : String → Option String) (s : Store)
    (r : InteractionReq) (now : Nat) (taddr : String) (f : String)
    (hto : r.to_ = some taddr) (hv : isAddress taddr = true)
    (hvf : validFrom r = some f) :
    ((recordInteraction la s r now).2).nodes =
      ((upsertGraphNode la (upsertGraphNode la s (strToLower taddr) now).1 f now).1).nodes := by
  unfold recordInteraction
  rw [hto]
  simp only [hv, if_true]
  simp [hvf]

theorem recordInteraction_nodes_none (la : String → Option String) (s : Store)
    (r : InteractionReq) (now : Nat) (taddr : String)
    (hto : r.to_ = some taddr) (hv : isAddress taddr = true)
    (hvf : validFrom r = none) :
    ((recordInteraction la s r now).2).nodes =
      ((upsertGraphNode la s (strToLower taddr) now).1).nodes := by
  unfold recordInteraction
  rw [hto]
  simp only [hv, if_true]
  simp [hvf]

theorem recordInteraction_neighbors_none (la : String → Option String) (s : Store)
    (r : InteractionReq) (now : Nat) (taddr : String)
    (hto : r.to_ = some taddr) (hv : isAddress taddr = true)
    (hvf : validFrom r = none) :
    ((recordInteraction la s r now).2).neighbors = s.neighbors := by
  unfold recordInteraction
  rw [hto]
  simp only [hv, if_true]
  simp [hvf, upsertGraphNode_neighbors]

theorem recordInteraction_neighbors_some (la : String → Option String) (s : Store)
    (r : InteractionReq) (now : Nat) (taddr : String) (f : String)
    (hto : r.to_ = some taddr) (hv : isAddress taddr = true)
    (hvf : validFrom r = some f) :
    ((recordInteraction la s r now).2).neighbors = fun a =>
      if a = strToLower taddr then
        saddL (if strToLower taddr = f
               then saddL (s.neighbors f) (strToLower taddr)
               else s.neighbors (strToLower taddr)) f
      else if a = f then saddL (s.neighbors f) (strToLower taddr)
      else s.neighbors a := by
  unfold recordInteraction
  rw [hto]
  simp only [hv, if_true]
  simp [hvf, upsertGraphNode_neighbors]

/-- Sequential iteration distributes over list append. -/
theorem iterateRI_append (la : String → Option String)
    (l1 l2 : List (InteractionReq × Nat)) (s : Store) :
    iterateRI la (l1 ++ l2) s = iterateRI la l2 (iterateRI la l1 s) := by
  induction l1 generalizing s with
  | nil => rfl
  | cons ev rest ih => simp [iterateRI, ih]

/-- In a list sorted by `≤`, earlier elements are at most later ones. -/
theorem sorted_get_mono (times : List Nat) (hsort : times.Sorted (· ≤ ·))
    (i j : Nat) (hi : i < times.length) (hj : j < times.length) (hle : j ≤ i) :
    times.get ⟨j, hj⟩ ≤ times.get ⟨i, hi⟩ := by
  rcases Nat.lt_or_ge j i with hlt | hge
  · exact List.Sorted.rel_get_of_lt hsort hlt
  · have hji : j = i := le_antisymm hle hge
    subst hji
    exact le_refl _

/-- In an event list whose timestamps are sorted by `≤`, earlier timestamps
are at most later ones. -/
theorem sorted_snd_mono (events : List (InteractionReq × Nat))
    (hsort : (events.map Prod.snd).Sorted (· ≤ ·))
    (i j : Nat) (hi : i < events.length) (hj : j < events.length) (hle : j ≤ i) :
    (events.get ⟨j, hj⟩).2 ≤ (events.get ⟨i, hi⟩).2 := by
  have hi2 : i < (events.map Prod.snd).length := by
    rw [List.length_map]; exact hi
  have hj2 : j < (events.map Prod.snd).length := by
    rw [List.length_map]; exact hj
  have h := sorted_get_mono (events.map Prod.snd) hsort i j hi2 hj2 hle
  simpa using h

/-- The counting loop equals the length of the flagged-neighbor filter. -/
theorem countFlagged_eq_filter_length (black : List String) (l : List String) :
    countFlagged black l = (l.filter (fun nb => black.contains nb)).length := by
  unfold countFlagged
  suffices h : ∀ acc, l.foldl (fun a nb => if black.contains nb then a + 1 else a) acc
      = acc + (l.filter (fun nb => black.contains nb)).length by
    simpa using h 0
  induction l with
  | nil => intro acc; simp
  | cons x xs ih =>
      intro acc
      rw [List.foldl_cons, List.filter_cons]
      by_cases h : black.contains x = true
      · rw [if_pos h, if_pos h, ih (acc + 1), List.length_cons]
        omega
      · rw [if_neg h, if_neg h, ih acc]

/-! ## Graph claims -/

/-- Claim C8: a recordInteraction request whose `to` address is malformed
(absent — which also covers non-string bodies, modelled as `none` — or not a
syntactically valid address) is rejected with the caller-visible validation
error, and the store is returned completely unchanged: the 400 response is
produced before any node, edge, neighbor-set or edge-membership write. -/
theorem C8_reject_before_mutation (la : String → Option String) (s : Store)
    (r : InteractionReq) (now : Nat)
    (hbad : r.to_ = none ∨ ∃ t, r.to_ = some t ∧ isAddress t = false) :
    recordInteraction la s r now =
      (RIResult.badRequest "valid \"to\" address required", s) :=
  recordInteraction_invalid la s r now hbad

/-- Claim C8 witness: the concrete request `reqBad` (whose `to` is the
non-address string `"invalid"`) is rejected and `storeA5` is untouched. -/
theorem C8_reject_before_mutation_witness :
    recordInteraction (fun _ => none) storeA5 reqBad 99 =
      (RIResult.badRequest "valid \"to\" address required", storeA5) :=
  C8_reject_before_mutation (fun _ => none) storeA5 reqBad 99
    (Or.inr ⟨"invalid", rfl, by decide⟩)

/-- Claim C6: neighbor sets are updated symmetrically exactly when a valid
`from` address is supplied: with `validFrom r = some f` the canonical `to`
address ends up in `f`'s neighbor set and `f` in `to`'s; with `from` absent
(or invalid) the edge is keyed `("unknown", to)` and no neighbor set of any
address changes. -/
theorem C6_neighbor_symmetry (la : String → Option String) (s : Store)
    (r : InteractionReq) (now : Nat) (taddr : String)
    (hto : r.to_ = some taddr) (hv : isAddress taddr = true) :
    (∀ f, validFrom r = some f →
        strToLower taddr ∈ ((recordInteraction la s r now).2).neighbors f ∧
        f ∈ ((recordInteraction la s r now).2).neighbors (strToLower taddr))
    ∧ (validFrom r = none →
        effectiveFrom r = "unknown" ∧
        (((recordInteraction la s r now).2).edges
            ("unknown", strToLower taddr)).isSome ∧
        (∀ a, ((recordInteraction la s r now).2).neighbors a = s.neighbors a)) := by
  constructor
  · intro f hvf
    rw [recordInteraction_neighbors_some la s r now taddr f hto hv hvf]
    constructor
    · by_cases hfa : f = strToLower taddr
      · subst hfa
        simp only [if_pos rfl]
        exact mem_saddL_of_mem _ _ _ (mem_saddL_self _ _)
      · simp only [if_neg hfa, if_pos rfl]
        exact mem_saddL_self _ _
    · simp only [if_pos rfl]
      exact mem_saddL_self _ _
  · intro hvf
    have hef : effectiveFrom r = "unknown" := by
      simp [effectiveFrom, hvf]
    refine ⟨hef, ?_, ?_⟩
    · have h2 := recordInteraction_edges_key la s r now taddr hto hv
      rw [hef] at h2
      rw [h2]
      rfl
    · intro a
      rw [recordInteraction_neighbors_none la s r now taddr hto hv hvf]

/-- Claim C6 witness: recording `reqAB` on the empty store makes `addrA` and
`addrB` mutual neighbors, while recording `reqUB` (absent `from`) creates
the `("unknown", addrB)` edge and changes no neighbor set. -/
theorem C6_neighbor_symmetry_witness :
    addrB ∈ ((recordInteraction (fun _ => none) emptyStore reqAB 100).2).neighbors addrA ∧
    addrA ∈ ((recordInteraction (fun _ => none) emptyStore reqAB 100).2).neighbors addrB ∧
    (((recordInteraction (fun _ => none) emptyStore reqUB 100).2).edges
        ("unknown", addrB)).isSome ∧
    ((recordInteraction (fun _ => none) emptyStore reqUB 100).2).neighbors addrA = [] := by
  have h1 := (C6_neighbor_symmetry (fun _ => none) emptyStore reqAB 100 addrB rfl
    (by decide)).1 addrA (by decide)
  have h2 := (C6_neighbor_symmetry (fun _ => none) emptyStore reqUB 100 addrB rfl
    (by decide)).2 (by decide)
  exact ⟨h1.1, h1.2, h2.2.1, h2.2.2 addrA⟩

/-- Claim C3, counterexample: the claim says `kind` and `hostname` are also
overwritten by an update event when present.  On `storeB0` (edge created
with `kind = "connect"`, `hostname = "a.com"`), the update event `reqB2`
carries `kind = some "tx"` and `hostname = some "b.com"`, yet the stored
edge still has `("connect", "a.com")` afterwards: the update branch of the
handler only rewrites `count`, `lastSeen`, `type` and `method`. -/
theorem C3_counterexample :
    reqB2.kind = some "tx" ∧ reqB2.hostname = some "b.com" ∧
    (((recordInteraction (fun _ => none) storeB0 reqB2 20).2).edges
        ("unknown", addrB)).map (fun e => (e.kind, e.hostname)) =
      some ("connect", "a.com") ∧
    (("connect", "a.com") : String × String) ≠ ("tx", "b.com") :=
  ⟨rfl, rfl, rfl, by decide⟩

/-- Claim C3 (amended): when a recordInteraction event updates an existing
edge, only `method` behaves as a last-observed value (overwritten when the
event's `method` is present and non-empty, retained otherwise); `kind` and
`hostname` always retain the values from the event that created the edge;
`type` is recomputed from the current event; `count` increments,
`firstSeen` is retained and `lastSeen` becomes the current time. -/
theorem C3_update_last_observed (la : String → Option String) (s : Store)
    (r : InteractionReq) (now : Nat) (taddr : String) (e : EdgeData)
    (hto : r.to_ = some taddr) (hv : isAddress taddr = true)
    (hedge : s.edges (effectiveFrom r, strToLower taddr) = some e) :
    ∃ e2, ((recordInteraction la s r now).2).edges
        (effectiveFrom r, strToLower taddr) = some e2 ∧
      e2.method = jsOrS r.method e.method ∧
      e2.kind = e.kind ∧
      e2.hostname = e.hostname ∧
      e2.type = edgeTypeFromKind r.kind r.method ∧
      e2.count = e.count + 1 ∧
      e2.firstSeen = e.firstSeen ∧
      e2.lastSeen = now := by
  have h := recordInteraction_edge_existing la s r now taddr e hto hv hedge
  exact ⟨_, h, rfl, rfl, rfl, rfl, rfl, rfl, rfl⟩

/-- Claim C3 witness: on `storeB0` the update `reqB2` produces an edge with
`method = "m2"` (overwritten), `kind = "connect"` and `hostname = "a.com"`
(retained), and `count = 2`. -/
theorem C3_update_last_observed_witness :
    ∃ e2, ((recordInteraction (fun _ => none) storeB0 reqB2 20).2).edges
        ("unknown", addrB) = some e2 ∧
      e2.method = "m2" ∧ e2.kind = "connect" ∧ e2.hostname = "a.com" ∧
      e2.count = 2 := by
  obtain ⟨e2, he, hm, hk, hh, ht2, hc, hf, hl⟩ :=
    C3_update_last_observed (fun _ => none) storeB0 reqB2 20 addrB edgeB0
      rfl (by decide) rfl
  exact ⟨e2, he, hm, hk, hh, hc⟩

/-- Claim C5, counterexample: the claim says an event whose `from` and `to`
are the same address increments that node's `interactionCount` by exactly
one.  On `storeA5` (node `addrA` with count 5), the self-event `reqAA` calls
`upsertGraphNode` once for `to` and once more for `from`, leaving count 7,
not 6. -/
theorem C5_counterexample :
    reqAA.from_ = reqAA.to_ ∧
    (storeA5.nodes addrA).map (fun n => n.interactionCount) = some 5 ∧
    (((recordInteraction (fun _ => none) storeA5 reqAA 1000).2).nodes addrA).map
        (fun n => n.interactionCount) = some 7 ∧
    (7 : Nat) ≠ 5 + 1 :=
  ⟨rfl, rfl, rfl, by decide⟩

/-- Claim C5 (amended): `interactionCount` is incremented once per
`upsertGraphNode` call — once for the `to` node plus once more for the
`from` node when a valid `from` is supplied.  Hence an event whose `from`
and `to` coincide increments that node's count by exactly two; an event
whose effective `from` differs from the `to` node increments the `to`
node's count by exactly one; and `interactionCount` is monotonically
non-decreasing across every call. -/
theorem C5_interaction_count (la : String → Option String) (s : Store)
    (r : InteractionReq) (now : Nat) :
    (∀ F n, r.from_ = some F → r.to_ = some F → isAddress F = true →
        s.nodes (strToLower F) = some n →
        ∃ n2, ((recordInteraction la s r now).2).nodes (strToLower F) = some n2 ∧
          n2.interactionCount = n.interactionCount + 2)
    ∧ (∀ T n, r.to_ = some T → isAddress T = true →
        validFrom r ≠ some (strToLower T) →
        s.nodes (strToLower T) = some n →
        ∃ n2, ((recordInteraction la s r now).2).nodes (strToLower T) = some n2 ∧
          n2.interactionCount = n.interactionCount + 1)
    ∧ (∀ a n, s.nodes a = some n →
        ∃ n2, ((recordInteraction la s r now).2).nodes a = some n2 ∧
          n.interactionCount ≤ n2.interactionCount) := by
  refine ⟨?_, ?_, ?_⟩
  · intro F n hfrom hto hvF hn
    have hvf : validFrom r = some (strToLower F) := by
      unfold validFrom
      rw [hfrom]
      simp [hvF]
    rw [recordInteraction_nodes_some la s r now F (strToLower F) hto hvF hvf]
    have h1 := upsertGraphNode_nodes_same la s (strToLower F) now n hn
    have h2 := upsertGraphNode_nodes_same la
      (upsertGraphNode la s (strToLower F) now).1 (strToLower F) now _ h1
    rw [h2]
    exact ⟨_, rfl, rfl⟩
  · intro T n hto2 hvT hne hn
    cases hvf : validFrom r with
    | none =>
        rw [recordInteraction_nodes_none la s r now T hto2 hvT hvf]
        rw [upsertGraphNode_nodes_same la s (strToLower T) now n hn]
        exact ⟨_, rfl, rfl⟩
    | some f =>
        have hfne : strToLower T ≠ f := by
          intro h
          exact hne (h ▸ hvf)
        rw [recordInteraction_nodes_some la s r now T f hto2 hvT hvf]
        rw [upsertGraphNode_nodes_ne la _ f now (strToLower T) hfne]
        rw [upsertGraphNode_nodes_same la s (strToLower T) now n hn]
        exact ⟨_, rfl, rfl⟩
  · intro a n hn
    cases hto2 : r.to_ with
    | none =>
        rw [recordInteraction_invalid la s r now (Or.inl hto2)]
        exact ⟨n, hn, le_refl _⟩
    | some t =>
        by_cases hvt : isAddress t = true
        · cases hvf : validFrom r with
          | none =>
              rw [recordInteraction_nodes_none la s r now t hto2 hvt hvf]
              exact upsertGraphNode_count_mono la s (strToLower t) now a n hn
          | some f =>
              rw [recordInteraction_nodes_some la s r now t f hto2 hvt hvf]
              obtain ⟨n1, hn1, hle1⟩ :=
                upsertGraphNode_count_mono la s (strToLower t) now a n hn
              obtain ⟨n2, hn2, hle2⟩ := upsertGraphNode_count_mono la
                (upsertGraphNode la s (strToLower t) now).1 f now a n1 hn1
              exact ⟨n2, hn2, le_trans hle1 hle2⟩
        · have hvt2 : isAddress t = false := by
            revert hvt
            cases isAddress t <;> simp
          rw [recordInteraction_invalid la s r now (Or.inr ⟨t, hto2, hvt2⟩)]
          exact ⟨n, hn, le_refl _⟩

/-- Claim C5 witness: the amended theorem instantiated on `storeA5` and the
self-event `reqAA` gives a node with count 7 = 5 + 2. -/
theorem C5_interaction_count_witness :
    ∃ n2, ((recordInteraction (fun _ => none) storeA5 reqAA 1000).2).nodes addrA
        = some n2 ∧ n2.interactionCount = 7 := by
  obtain ⟨n2, hn2, hc⟩ :=
    (C5_interaction_count (fun _ => none) storeA5 reqAA 1000).1 addrA nodeA5
      rfl rfl (by decide) (by decide)
  exact ⟨n2, hn2, hc⟩

/-- Claim C9: the risk summary of an address reports `totalNeighborCount`
equal to the size of its neighbor set, `flaggedNeighborCount` equal to the
number of those neighbors in the blacklist membership set, and `flagged`
equal to the membership test of the canonicalized lowercase address. -/
theorem C9_risk_summary (s : Store) (address : String) (N F : Nat)
    (hN : (s.neighbors (strToLower address)).length = N)
    (hF : ((s.neighbors (strToLower address)).filter
        (fun nb => s.blacklist.contains nb)).length = F) :
    (riskSummary s address).totalNeighborCount = N ∧
    (riskSummary s address).flaggedNeighborCount = F ∧
    (riskSummary s address).flagged = s.blacklist.contains (strToLower address) := by
  refine ⟨?_, ?_, rfl⟩
  · simpa [riskSummary] using hN
  · simp only [riskSummary]
    rw [countFlagged_eq_filter_length]
    exact hF

/-- Claim C9 witness: on `storeR` (`addrA` has neighbors `[addrB, addrC]`,
blacklist `[addrB]`) the summary is `N = 2`, `F = 1`, `flagged = false`. -/
theorem C9_risk_summary_witness :
    (riskSummary storeR addrA).totalNeighborCount = 2 ∧
    (riskSummary storeR addrA).flaggedNeighborCount = 1 ∧
    (riskSummary storeR addrA).flagged = false := by
  have h := C9_risk_summary storeR addrA 2 1 (by decide) (by decide)
  refine ⟨h.1, h.2.1, ?_⟩
  rw [h.2.2]
  decide

/-- Claim C1: for every sequence of successful recordInteraction calls whose
events all carry the same effective `(from, to)` pair `(ef, ta)` — the
individual requests may differ in `method`, `kind`, `hostname`, the other
optional fields and even the hex casing of the addresses, as long as each
validates and canonicalizes to that pair — executed sequentially at
non-decreasing times, exactly one edge record of that ordered pair exists
(the store is keyed by the pair, so uniqueness is structural, mirroring the
Redis key `graph:edge:{from}:{to}`) and after step `i + 1` it has
`count = i + 1` (strictly increasing, hence monotone), `firstSeen` pinned to
the first event's time, and `lastSeen` equal to the `i`-th event's time,
which is non-decreasing in `i` by sortedness — and every step reports
success. -/
theorem C1_edge_upsert_sequence (la : String → Option String)
    (events : List (InteractionReq × Nat)) (ef ta : String)
    (hvalid : ∀ ev ∈ events, ∃ taddr, ev.1.to_ = some taddr ∧
        isAddress taddr = true ∧ effectiveFrom ev.1 = ef ∧ strToLower taddr = ta)
    (hsort : (events.map Prod.snd).Sorted (· ≤ ·))
    (s0 : Store) (h0 : s0.edges (ef, ta) = none) :
    ∀ i, (hi : i < events.length) →
      (recordInteraction la (iterateRI la (events.take i) s0)
          (events.get ⟨i, hi⟩).1 (events.get ⟨i, hi⟩).2).1 = RIResult.ok ∧
      ∃ e, (iterateRI la (events.take (i + 1)) s0).edges (ef, ta) = some e ∧
        e.count = i + 1 ∧
        e.firstSeen = (events.get ⟨0, Nat.lt_of_le_of_lt (Nat.zero_le i) hi⟩).2 ∧
        e.lastSeen = (events.get ⟨i, hi⟩).2 ∧
        (∀ j, (hj : j < events.length) → j ≤ i →
            (events.get ⟨j, hj⟩).2 ≤ (events.get ⟨i, hi⟩).2) := by
  intro i
  induction i with
  | zero =>
      intro hi
      obtain ⟨taddr, hto, hv, hef, hta⟩ :=
        hvalid (events.get ⟨0, hi⟩) (List.get_mem events 0 hi)
      have hkey : ((effectiveFrom (events.get ⟨0, hi⟩).1, strToLower taddr) :
          String × String) = (ef, ta) := by
        rw [hef, hta]
      refine ⟨recordInteraction_ok la s0 (events.get ⟨0, hi⟩).1
        (events.get ⟨0, hi⟩).2 taddr hto hv, ?_⟩
      have htake : events.take 0 ++ [events.get ⟨0, hi⟩] = events.take 1 :=
        List.take_concat_get events 0 hi
      have hstep := recordInteraction_edge_new la s0 (events.get ⟨0, hi⟩).1
        (events.get ⟨0, hi⟩).2 taddr hto hv (by rw [hkey]; exact h0)
      have hfinal : (iterateRI la (events.take (0 + 1)) s0).edges (ef, ta) =
          some { from_ := effectiveFrom (events.get ⟨0, hi⟩).1,
                 to_ := strToLower taddr,
                 type := edgeTypeFromKind (events.get ⟨0, hi⟩).1.kind
                           (events.get ⟨0, hi⟩).1.method,
                 method := jsStr (events.get ⟨0, hi⟩).1.method,
                 kind := jsStr (events.get ⟨0, hi⟩).1.kind,
                 hostname := jsStr (events.get ⟨0, hi⟩).1.hostname,
                 count := 1,
                 firstSeen := (events.get ⟨0, hi⟩).2,
                 lastSeen := (events.get ⟨0, hi⟩).2,
                 chainId := (events.get ⟨0, hi⟩).1.chainId,
                 value := (events.get ⟨0, hi⟩).1.value,
                 hasData := (events.get ⟨0, hi⟩).1.hasData } := by
        rw [← htake, ← hkey]
        exact hstep
      refine ⟨_, hfinal, rfl, rfl, rfl, ?_⟩
      intro j hj hle
      have hj0 : j = 0 := Nat.le_zero.mp hle
      subst hj0
      exact le_refl _
  | succ i ih =>
      intro hi
      have hi' : i < events.length := Nat.lt_of_succ_lt hi
      obtain ⟨hok, e, he, hcount, hfirst, hlast, hmono⟩ := ih hi'
      obtain ⟨taddr, hto, hv, hef, hta⟩ :=
        hvalid (events.get ⟨i + 1, hi⟩) (List.get_mem events (i + 1) hi)
      have hkey : ((effectiveFrom (events.get ⟨i + 1, hi⟩).1, strToLower taddr) :
          String × String) = (ef, ta) := by
        rw [hef, hta]
      have hstep := recordInteraction_edge_existing la
        (iterateRI la (events.take (i + 1)) s0) (events.get ⟨i + 1, hi⟩).1
        (events.get ⟨i + 1, hi⟩).2 taddr e hto hv (by rw [hkey]; exact he)
      refine ⟨recordInteraction_ok la _ _ _ taddr hto hv, ?_⟩
      have htake : events.take (i + 1) ++ [events.get ⟨i + 1, hi⟩] =
          events.take (i + 2) := by
        have h2 := List.take_concat_get events (i + 1) hi
        rwa [List.concat_eq_append] at h2
      have hfinal : (iterateRI la (events.take (i + 1 + 1)) s0).edges (ef, ta) =
          some { e with count := e.count + 1,
                        lastSeen := (events.get ⟨i + 1, hi⟩).2,
                        type := edgeTypeFromKind (events.get ⟨i + 1, hi⟩).1.kind
                                  (events.get ⟨i + 1, hi⟩).1.method,
                        method := jsOrS (events.get ⟨i + 1, hi⟩).1.method
                                    e.method } := by
        rw [show i + 1 + 1 = i + 2 from rfl, ← htake, iterateRI_append, ← hkey]
        exact hstep
      refine ⟨_, hfinal, ?_, ?_, rfl, ?_⟩
      · simp [hcount]
      · exact hfirst
      · intro j hj hle
        exact sorted_snd_mono events hsort (i + 1) j hi hj hle

/-- Claim C1 witness: two different events on the same effective pair —
`reqAB` (lowercase `to`, `kind "tx"`) at time 100, then `reqAB2`
(uppercase-hex `to`, `kind "sign"`, other hostname) at time 200 — leave the
`(addrA, addrB)` edge with `count = 2`, `firstSeen = 100`,
`lastSeen = 200`. -/
theorem C1_edge_upsert_sequence_witness :
    ∃ e, (iterateRI (fun _ => none) [(reqAB, 100), (reqAB2, 200)]
            emptyStore).edges (addrA, addrB) = some e ∧
      e.count = 2 ∧ e.firstSeen = 100 ∧ e.lastSeen = 200 := by
  have hvalid : ∀ ev ∈ [(reqAB, 100), (reqAB2, 200)], ∃ taddr,
      ev.1.to_ = some taddr ∧ isAddress taddr = true ∧
      effectiveFrom ev.1 = addrA ∧ strToLower taddr = addrB := by
    intro ev hev
    simp only [List.mem_cons, List.not_mem_nil, or_false] at hev
    rcases hev with hev | hev
    · subst hev
      exact ⟨addrB, rfl, by decide, by decide, by decide⟩
    · subst hev
      exact ⟨addrBU, rfl, by decide, by decide, by decide⟩
  have h := C1_edge_upsert_sequence (fun _ => none) [(reqAB, 100), (reqAB2, 200)]
    addrA addrB hvalid (by decide) emptyStore rfl 1 (by decide)
  obtain ⟨-, e, he, hc, hf, hl, -⟩ := h
  exact ⟨e, he, hc, hf, hl⟩

end Ensight
